import Mathlib

/-!
Shallow embedding of the ballot session controller of the
online-voting-portal repository.

The repository contains several near-duplicate React flow components.
The logic embedded here is taken from:
  - the strict flow variant (src/unnamed/part_000, with the same submit
    logic repeated in part_002 and part_004): handleSelectCandidate,
    toggleSkip, handleSubmit, isPositionSelected;
  - the permissive flow variant (src/unnamed/part_001): selectCandidate,
    toggleSkip (named toggleSkip1 here), submitVote, canProceed.

Selections are a JavaScript object keyed by position, embedded as an
association list so that spread-update semantics (update an existing key
in place, append a fresh key) and Object.values ordering are kept.
The skipped set is a JavaScript Set, embedded as a Finset since every
observation made of it (has, delete, add, size) is order-independent.
Timestamps are integers; store calls are modelled by an environment
recording the fetched deadline and whether each write succeeds, and the
submit functions return the produced result together with the ordered
list of write calls they issued.
-/

namespace VotingPortal

abbrev Position := String

abbrev CandidateId := Nat

/-- Selections embeds the Selections record (Record<string, number | null>):
an association list from position to (number | null), kept in key insertion
order as JavaScript objects are. -/
abbrev Selections := List (Position × Option CandidateId)

/-- Embeds the JavaScript object read selections[p]: none is undefined
(key absent), some none is null, some (some c) is candidate c. -/
def getEntry : Selections → Position → Option (Option CandidateId)
  | [], _ => none
  | (k, v) :: rest, p => if k = p then some v else getEntry rest p

/-- Embeds the spread update { ...prev, [p]: v }: replaces the value of an
existing key in place, appends the key otherwise. -/
def setKey : Selections → Position → Option CandidateId → Selections
  | [], p, v => [(p, v)]
  | (k, w) :: rest, p, v =>
      if k = p then (p, v) :: rest else (k, w) :: setKey rest p v

/-- State of the selection store of one flow component: the selections
object together with the skipped set. -/
structure SelState where
  selections : Selections
  skipped : Finset Position
deriving DecidableEq

/-- Value of the entry for a position as the voter sees it: some c when a
candidate is chosen, none when the slot is null or the key is absent. -/
def entryOf (st : SelState) (p : Position) : Option CandidateId :=
  (getEntry st.selections p).join

/-- Embeds handleSelectCandidate of part_000 (identical in part_001,
part_002, part_004): writes the candidate into the selections object and
deletes the position from the skipped set. -/
def handleSelectCandidate (st : SelState) (position : Position)
    (candidateId : CandidateId) : SelState :=
  { selections := setKey st.selections position (some candidateId)
    skipped := st.skipped.erase position }

/-- Embeds toggleSkip of part_000 (identical in part_002 and part_004):
if the position is currently skipped it is un-skipped and the selection
slot is rewritten with s[position] ?? null; otherwise the position is
added to the skipped set and its selection slot is set to null. -/
def toggleSkip (st : SelState) (position : Position) : SelState :=
  if position ∈ st.skipped then
    { skipped := st.skipped.erase position
      selections :=
        setKey st.selections position (getEntry st.selections position).join }
  else
    { skipped := insert position st.skipped
      selections := setKey st.selections position none }

/-- Embeds toggleSkip of part_001: same as toggleSkip except that the
un-skip branch leaves the selections object untouched. -/
def toggleSkip1 (st : SelState) (position : Position) : SelState :=
  if position ∈ st.skipped then
    { st with skipped := st.skipped.erase position }
  else
    { skipped := insert position st.skipped
      selections := setKey st.selections position none }

/-- Embeds the initial state built after the catalog loads: every derived
position is seeded with null in the selections object (the reduce over
uniquePositions in loadCandidates), and the skipped set starts empty. -/
def initState (positions : List Position) : SelState :=
  { selections := positions.foldl (fun acc p => setKey acc p none) []
    skipped := ∅ }

/-- JavaScript truthiness of a string: the empty string is falsy. -/
def jsTruthy (s : String) : Bool := s ≠ ""

/-- Embeds isPositionSelected of part_000: the advance gate of the strict
flow. It reads positions[currentPage]; an out-of-range page (the review
page) or a falsy label yields true, otherwise it tests
selections[currentPosition] !== null, which ignores the skipped set. -/
def isPositionSelected (positions : List Position) (st : SelState)
    (currentPage : Nat) : Bool :=
  match positions[currentPage]? with
  | none => true
  | some pos =>
      if jsTruthy pos then decide (getEntry st.selections pos ≠ some none)
      else true

/-- Embeds canProceed of part_001: the advance gate of the permissive
flow, which also lets a skipped position pass. -/
def canProceed (positions : List Position) (st : SelState)
    (currentPage : Nat) : Bool :=
  match positions[currentPage]? with
  | none => true
  | some pos =>
      if jsTruthy pos then
        decide (getEntry st.selections pos ≠ some none) || pos ∈ st.skipped
      else true

/-- A write call issued against the Ballot Store: the batched votes
insert, or the has_voted update of one voter. -/
inductive Write where
  | insertVotes (votes : List (Nat × CandidateId))
  | markVoted (voterId : Nat)
deriving DecidableEq, Repr

/-- Outcome a submit attempt reports to the voter. -/
inductive SubmitResult where
  | deadlineExpired
  | incompleteBallot
  | submissionError
  | success
deriving DecidableEq, Repr

/-- The deadline comparison new Date() > new Date(value), guarded by the
settings row being present: absent deadline never expires. -/
def dlExpired : Option Int → Int → Bool
  | none, _ => false
  | some d, now => now > d

/-- Environment of one submit attempt: the result of the fresh deadline
fetch (error, or a row that may be absent), the current time, and whether
each of the two store writes succeeds. -/
structure SubmitEnv where
  deadlineFetch : Except Unit (Option Int)
  now : Int
  insertOk : Bool
  markOk : Bool

/-- Embeds handleSubmit of part_000 (the same logic appears in part_002
and part_004): re-fetch the deadline (a fetch error is thrown and caught
as a submission error); bail out when expired; require as many non-null
selection values as there are positions; then insert the vote batch and
afterwards mark the voter, each write able to fail. Returns the reported
result and the ordered list of store calls issued. -/
def handleSubmit (env : SubmitEnv) (voterId : Nat)
    (positions : List Position) (st : SelState) :
    SubmitResult × List Write :=
  match env.deadlineFetch with
  | .error _ => (.submissionError, [])
  | .ok dl =>
      if dlExpired dl env.now then (.deadlineExpired, [])
      else
        let filled := (st.selections.map Prod.snd).filterMap id
        if filled.length ≠ positions.length then (.incompleteBallot, [])
        else
          let votes := filled.map (fun cid => (voterId, cid))
          if env.insertOk then
            if env.markOk then
              (.success, [.insertVotes votes, .markVoted voterId])
            else (.submissionError, [.insertVotes votes, .markVoted voterId])
          else (.submissionError, [.insertVotes votes])

/-- Environment of one submit attempt of the permissive flow: its deadline
fetch uses .single() and discards the fetch error, so error and absent
row collapse to none. -/
structure SubmitEnv1 where
  deadlineFetch : Option Int
  now : Int
  insertOk : Bool
  markOk : Bool

/-- Embeds submitVote of part_001: bail out when the fetched deadline is
expired; build one vote per non-null selection entry (there is no
completeness check); insert the batch only when it is non-empty; then
mark the voter in every case. -/
def submitVote (env : SubmitEnv1) (voterId : Nat) (st : SelState) :
    SubmitResult × List Write :=
  if dlExpired env.deadlineFetch env.now then (.deadlineExpired, [])
  else
    let votes :=
      st.selections.filterMap (fun pr => pr.2.map (fun cid => (voterId, cid)))
    if votes.length > 0 then
      if env.insertOk then
        if env.markOk then
          (.success, [.insertVotes votes, .markVoted voterId])
        else (.submissionError, [.insertVotes votes, .markVoted voterId])
      else (.submissionError, [.insertVotes votes])
    else
      if env.markOk then (.success, [.markVoted voterId])
      else (.submissionError, [.markVoted voterId])

/-- Voter actions that mutate the selection store during a session; the
UI invokes both only with the position of the current question page. -/
inductive Ev where
  | select (p : Position) (c : CandidateId)
  | skip (p : Position)

/-- An action is valid when its position is one of the catalog positions. -/
def Ev.valid (positions : List Position) : Ev → Prop
  | .select p _ => p ∈ positions
  | .skip p => p ∈ positions

/-- One voter action applied to the strict flow state. -/
def step (st : SelState) : Ev → SelState
  | .select p c => handleSelectCandidate st p c
  | .skip p => toggleSkip st p

/-- State after a sequence of voter actions from the freshly initialized
store. -/
def runEvents (positions : List Position) (evs : List Ev) : SelState :=
  evs.foldl step (initState positions)

/-- A state is reachable when some sequence of valid voter actions
produces it from the initial state. -/
def Reachable (positions : List Position) (st : SelState) : Prop :=
  ∃ evs : List Ev, (∀ e ∈ evs, e.valid positions) ∧
    runEvents positions evs = st

/-- Completeness of one position in the sense of the spec's
SelectionStore.isComplete: the entry holds a candidate or the position is
skipped (the formula of canProceed of part_001 on a present key). -/
def isComplete (st : SelState) (p : Position) : Bool :=
  (entryOf st p).isSome || p ∈ st.skipped

/-! Basic lemmas about the association-list selections object. -/

theorem getEntry_setKey_self (s : Selections) (p : Position)
    (v : Option CandidateId) : getEntry (setKey s p v) p = some v := by
  induction s with
  | nil => simp [setKey, getEntry]
  | cons hd tl ih =>
      obtain ⟨k, w⟩ := hd
      by_cases h : k = p
      · simp [setKey, h, getEntry]
      · simp [setKey, h, getEntry, ih]

theorem getEntry_setKey_ne (s : Selections) (p q : Position)
    (v : Option CandidateId) (h : q ≠ p) :
    getEntry (setKey s p v) q = getEntry s q := by
  induction s with
  | nil => simp [setKey, getEntry, Ne.symm h]
  | cons hd tl ih =>
      obtain ⟨k, w⟩ := hd
      by_cases hk : k = p
      · subst hk
        simp [setKey, getEntry, Ne.symm h]
      · simp [setKey, hk, getEntry, ih]

theorem setKey_setKey (s : Selections) (p : Position)
    (v w : Option CandidateId) : setKey (setKey s p v) p w = setKey s p w := by
  induction s with
  | nil => simp [setKey]
  | cons hd tl ih =>
      obtain ⟨k, u⟩ := hd
      by_cases h : k = p
      · simp [setKey, h]
      · simp [setKey, h, ih]

theorem setKey_eq_self (s : Selections) (p : Position)
    (v : Option CandidateId) (h : getEntry s p = some v) : setKey s p v = s := by
  induction s with
  | nil => simp [getEntry] at h
  | cons hd tl ih =>
      obtain ⟨k, w⟩ := hd
      by_cases hk : k = p
      · subst hk
        simp [getEntry] at h
        simp [setKey, h]
      · simp [getEntry, hk] at h
        simp [setKey, hk, ih h]

theorem getEntry_mem {s : Selections} {p : Position} {v : Option CandidateId}
    (h : getEntry s p = some v) : (p, v) ∈ s := by
  induction s with
  | nil => simp [getEntry] at h
  | cons hd tl ih =>
      obtain ⟨k, w⟩ := hd
      by_cases hk : k = p
      · subst hk
        simp [getEntry] at h
        simp [h]
      · simp [getEntry, hk] at h
        exact List.mem_cons_of_mem _ (ih h)

theorem getEntry_isSome_of_mem {s : Selections} {p : Position}
    (h : p ∈ s.map Prod.fst) : (getEntry s p).isSome := by
  induction s with
  | nil => simp at h
  | cons hd tl ih =>
      obtain ⟨k, w⟩ := hd
      by_cases hk : k = p
      · simp [getEntry, hk]
      · rw [List.map_cons, List.mem_cons] at h
        rcases h with h | h
        · exact absurd h.symm hk
        · simpa [getEntry, hk] using ih h

theorem setKey_of_not_mem {s : Selections} {p : Position}
    (v : Option CandidateId) (h : p ∉ s.map Prod.fst) :
    setKey s p v = s ++ [(p, v)] := by
  induction s with
  | nil => simp [setKey]
  | cons hd tl ih =>
      obtain ⟨k, w⟩ := hd
      by_cases hk : k = p
      · exact absurd (by simp [hk]) h
      · have h2 : p ∉ tl.map Prod.fst := fun hh => h (by simp [hh])
        simp [setKey, hk, ih h2]

theorem length_filterMap_id_lt {α : Type} {l : List (Option α)}
    (h : none ∈ l) : (l.filterMap id).length < l.length := by
  induction l with
  | nil => simp at h
  | cons hd tl ih =>
      cases hd with
      | none =>
          simp only [List.filterMap_cons_none, List.length_cons]
          exact Nat.lt_succ_of_le (List.length_filterMap_le id tl)
      | some a =>
          simp at h
          simp only [List.filterMap_cons_some, List.length_cons]
          exact Nat.succ_lt_succ (ih h)

/-! The skip/candidate exclusivity invariant and its preservation by the
voter actions of the strict flow. -/

/-- A state is exclusive when every skipped position has no chosen
candidate in the selections object. -/
def SkipInv (st : SelState) : Prop := ∀ p ∈ st.skipped, entryOf st p = none

theorem skipInv_select (st : SelState) (p : Position) (c : CandidateId)
    (h : SkipInv st) : SkipInv (handleSelectCandidate st p c) := by
  intro q hq
  simp only [handleSelectCandidate, Finset.mem_erase] at hq
  simpa [entryOf, handleSelectCandidate, getEntry_setKey_ne _ _ _ _ hq.1]
    using h q hq.2

theorem skipInv_toggle (st : SelState) (p : Position)
    (h : SkipInv st) : SkipInv (toggleSkip st p) := by
  intro q hq
  by_cases hp : p ∈ st.skipped
  · simp only [toggleSkip, if_pos hp, Finset.mem_erase] at hq
    simpa [entryOf, toggleSkip, if_pos hp,
      getEntry_setKey_ne _ _ _ _ hq.1] using h q hq.2
  · simp only [toggleSkip, if_neg hp, Finset.mem_insert] at hq
    rcases hq with hq | hq
    · subst hq
      simp [entryOf, toggleSkip, if_neg hp, getEntry_setKey_self]
    · have hqp : q ≠ p := fun hh => hp (hh ▸ hq)
      simpa [entryOf, toggleSkip, if_neg hp,
        getEntry_setKey_ne _ _ _ _ hqp] using h q hq

theorem skipInv_step (st : SelState) (e : Ev) (h : SkipInv st) :
    SkipInv (step st e) := by
  cases e with
  | select p c => exact skipInv_select st p c h
  | skip p => exact skipInv_toggle st p h

theorem skipInv_foldl (evs : List Ev) (st : SelState) (h : SkipInv st) :
    SkipInv (evs.foldl step st) := by
  induction evs generalizing st with
  | nil => exact h
  | cons e tl ih => exact ih (step st e) (skipInv_step st e h)

theorem skipInv_initState (positions : List Position) :
    SkipInv (initState positions) := by
  intro p hp
  simp [initState] at hp

theorem skipInv_reachable {positions : List Position} {st : SelState}
    (h : Reachable positions st) : SkipInv st := by
  obtain ⟨evs, _, hrun⟩ := h
  exact hrun ▸ skipInv_foldl evs (initState positions)
    (skipInv_initState positions)


/-- C4 counterexample: starting from the state where candidate 1 is chosen
for position A, two consecutive skip toggles do not restore the chosen
candidate; the entry ends up unset. -/
theorem skip_twice_loses_candidate :
    toggleSkip (toggleSkip (handleSelectCandidate (initState ["A"]) "A" 1) "A") "A" ≠
      handleSelectCandidate (initState ["A"]) "A" 1 := by decide

/-- C4 (amended): two consecutive skip toggles restore the state exactly
when the position's selection slot currently holds null (the entry is
unset or skipped); a previously chosen candidate is not restored. -/
theorem toggleSkip_toggleSkip (st : SelState) (p : Position)
    (h : getEntry st.selections p = some none) :
    toggleSkip (toggleSkip st p) p = st := by
  obtain ⟨s, sk⟩ := st
  simp only [SelState.mk.injEq] at h ⊢
  by_cases hp : p ∈ sk
  · have hsel : setKey s p (getEntry s p).join = setKey s p none := by rw [h]; rfl
    simp only [toggleSkip, if_pos hp, hsel]
    have hnot : p ∉ sk.erase p := Finset.not_mem_erase p sk
    simp only [if_neg hnot, setKey_setKey]
    simp [setKey_eq_self _ _ _ h, Finset.insert_erase hp]
  · simp only [toggleSkip, if_neg hp]
    have hmem : p ∈ insert p sk := Finset.mem_insert_self p sk
    simp only [if_pos hmem, getEntry_setKey_self, setKey_setKey, Option.join]
    simp [setKey_eq_self _ _ _ h, Finset.erase_insert hp]

/-- C4 witness: on the freshly initialized store, skipping position A
twice restores the initial state. -/
theorem toggleSkip_toggleSkip_witness :
    toggleSkip (toggleSkip (initState ["A"]) "A") "A" = initState ["A"] :=
  toggleSkip_toggleSkip (initState ["A"]) "A" (by decide)


/-- C6: after select(p, c) the entry for p holds exactly c, p is not
skipped, and isComplete(p) holds; and in every reachable state a skipped
position never holds a candidate (skip/candidate exclusivity). -/
theorem select_sets_candidate_and_exclusivity :
    (∀ (st : SelState) (p : Position) (c : CandidateId),
        entryOf (handleSelectCandidate st p c) p = some c ∧
        p ∉ (handleSelectCandidate st p c).skipped ∧
        isComplete (handleSelectCandidate st p c) p = true) ∧
    (∀ (positions : List Position) (st : SelState),
        Reachable positions st → ∀ p ∈ st.skipped, entryOf st p = none) := by
  constructor
  · intro st p c
    have hentry : entryOf (handleSelectCandidate st p c) p = some c := by
      simp [entryOf, handleSelectCandidate, getEntry_setKey_self]
    refine ⟨hentry, Finset.not_mem_erase p st.skipped, ?_⟩
    simp [isComplete, hentry]
  · intro positions st h p hp
    exact skipInv_reachable h p hp

/-- C6 witness: after selecting candidate 2 for position A the entry is
2, and in the reachable state where A was skipped the entry is empty. -/
theorem select_sets_candidate_and_exclusivity_witness :
    entryOf (handleSelectCandidate (initState ["A"]) "A" 2) "A" = some 2 ∧
    entryOf (runEvents ["A"] [Ev.skip "A"]) "A" = none :=
  ⟨(select_sets_candidate_and_exclusivity.1 (initState ["A"]) "A" 2).1,
   select_sets_candidate_and_exclusivity.2 ["A"] (runEvents ["A"] [Ev.skip "A"])
     ⟨[Ev.skip "A"], by intro e he; simp at he; subst he; simp [Ev.valid], rfl⟩
     "A" (by decide)⟩

/-- C8 counterexample: selecting position B, which is not a key of the
store initialized for catalog positions [A], does not fail: it silently
appends a fresh entry holding candidate 7 for B. -/
theorem select_unknown_creates_entry :
    (handleSelectCandidate (initState ["A"]) "B" 7).selections =
      [("A", none), ("B", some 7)] ∧ "B" ∉ ["A"] := by decide

/-- C8 (amended): select with a position that is not a known key of the
selections object performs no validation and does not fail; it silently
creates an entry for that position holding the candidate (appended to the
object) and erases the position from the skipped set. -/
theorem select_unknown_appends (st : SelState) (p : Position)
    (c : CandidateId) (h : p ∉ st.selections.map Prod.fst) :
    (handleSelectCandidate st p c).selections =
      st.selections ++ [(p, some c)] ∧
    (handleSelectCandidate st p c).skipped = st.skipped.erase p := by
  exact ⟨by simp [handleSelectCandidate, setKey_of_not_mem _ h], rfl⟩

/-- C8 witness: instantiation of the amended claim at the initial store
for catalog positions [A] and the unknown position B. -/
theorem select_unknown_appends_witness :
    (handleSelectCandidate (initState ["A"]) "B" 7).selections =
      (initState ["A"]).selections ++ [("B", some 7)] ∧
    (handleSelectCandidate (initState ["A"]) "B" 7).skipped =
      (initState ["A"]).skipped.erase "B" :=
  select_unknown_appends (initState ["A"]) "B" 7 (by decide)


/-- C5 counterexample: with catalog positions [A] and position A skipped
(a state whose entry is skipped, hence not unset), the advance gate of
the strict flow (isPositionSelected of part_000) is false on question
page 0: a skipped entry does not permit advancing there. -/
theorem skipped_blocks_advance_in_strict_flow :
    isPositionSelected ["A"] (toggleSkip (initState ["A"]) "A") 0 = false ∧
    "A" ∈ (toggleSkip (initState ["A"]) "A").skipped ∧
    entryOf (toggleSkip (initState ["A"]) "A") "A" = none := by decide

/-- C5 (amended): on a question page whose position label is non-empty,
the advance gate of the permissive flow (canProceed of part_001) is false
exactly when the entry is unset (null and not skipped), so a skipped
entry permits advancing; the gate of the strict flow (isPositionSelected
of part_000) is instead false exactly when the slot holds null, so a
skipped entry does not permit advancing there. -/
theorem advance_gate_characterization (positions : List Position)
    (st : SelState) (currentPage : Nat) (pos : Position)
    (hpos : positions[currentPage]? = some pos) (hne : pos ≠ "") :
    (canProceed positions st currentPage = false ↔
      (getEntry st.selections pos = some none ∧ pos ∉ st.skipped)) ∧
    (isPositionSelected positions st currentPage = false ↔
      getEntry st.selections pos = some none) := by
  constructor
  · simp [canProceed, hpos, jsTruthy, hne]
  · simp [isPositionSelected, hpos, jsTruthy, hne]

/-- C5 witness: instantiation of the amended claim at the freshly
initialized store for catalog positions [A] on question page 0. -/
theorem advance_gate_characterization_witness :
    (canProceed ["A"] (initState ["A"]) 0 = false ↔
      (getEntry (initState ["A"]).selections "A" = some none ∧
        "A" ∉ (initState ["A"]).skipped)) ∧
    (isPositionSelected ["A"] (initState ["A"]) 0 = false ↔
      getEntry (initState ["A"]).selections "A" = some none) :=
  advance_gate_characterization ["A"] (initState ["A"]) 0 "A" rfl (by decide)


/-- Shared success path of the strict-flow submit: with a fetch that did
not report an expired deadline and a selections object holding one chosen
candidate per catalog position, both writes are issued in order and the
attempt succeeds. -/
theorem handleSubmit_success_core (env : SubmitEnv) (voterId : Nat)
    (positions : List Position) (st : SelState)
    (choice : Position → CandidateId) (dl : Option Int)
    (hfetch : env.deadlineFetch = Except.ok dl)
    (hdl : dlExpired dl env.now = false)
    (hsel : st.selections = positions.map (fun p => (p, some (choice p))))
    (hins : env.insertOk = true) (hmark : env.markOk = true) :
    handleSubmit env voterId positions st =
      (.success,
       [.insertVotes (positions.map (fun p => (voterId, choice p))),
        .markVoted voterId]) := by
  have hfill : ∀ ps : List Position,
      ps.filterMap (Prod.snd ∘ fun p => (p, some (choice p))) =
        ps.map choice := by
    intro ps
    induction ps with
    | nil => rfl
    | cons a tl ih =>
        simp only [List.filterMap_cons, List.map_cons, Function.comp_apply]
        simp [ih]
  simp [handleSubmit, hfetch, hdl, hsel, hins, hmark, hfill, List.map_map,
    Function.comp]

/-- C1: when the fresh deadline fetch succeeds and does not report an
expired deadline, a submit of the strict flow in any session state whose
selections object is keyed by the catalog positions and has no candidate
for some position fails with the incomplete-ballot outcome and issues no
store write. -/
theorem submit_incomplete_no_writes (env : SubmitEnv) (voterId : Nat)
    (positions : List Position) (st : SelState) (dl : Option Int)
    (hfetch : env.deadlineFetch = Except.ok dl)
    (hdl : dlExpired dl env.now = false)
    (hkeys : st.selections.map Prod.fst = positions)
    (p : Position) (hp : p ∈ positions) (hmiss : entryOf st p = none) :
    handleSubmit env voterId positions st = (.incompleteBallot, []) := by
  have hsome : (getEntry st.selections p).isSome :=
    getEntry_isSome_of_mem (hkeys ▸ hp)
  have hnull : getEntry st.selections p = some none := by
    rcases hh : getEntry st.selections p with _ | v
    · rw [hh] at hsome; simp at hsome
    · rcases v with _ | c
      · rfl
      · rw [entryOf, hh] at hmiss; simp at hmiss
  have hmem : none ∈ st.selections.map Prod.snd := by
    have := getEntry_mem hnull
    exact List.mem_map_of_mem Prod.snd this
  have hlen : (st.selections.map Prod.snd).length = positions.length := by
    rw [← hkeys]; simp
  have hlt : (st.selections.filterMap Prod.snd).length <
      positions.length := by
    have h0 := length_filterMap_id_lt hmem
    rw [List.filterMap_map] at h0
    have h1 : (id ∘ Prod.snd :
        Position × Option CandidateId → Option CandidateId) = Prod.snd := rfl
    rw [h1] at h0
    exact hlen ▸ h0
  simp [handleSubmit, hfetch, hdl, Nat.ne_of_lt hlt]

/-- C1 witness: submit with no deadline configured on the freshly
initialized store for catalog positions [A] (entry of A unset). -/
theorem submit_incomplete_no_writes_witness :
    handleSubmit ⟨Except.ok none, 0, true, true⟩ 9 ["A"] (initState ["A"]) =
      (.incompleteBallot, []) :=
  submit_incomplete_no_writes ⟨Except.ok none, 0, true, true⟩ 9 ["A"]
    (initState ["A"]) none rfl rfl (by decide) "A" (by decide) (by decide)

/-- C2: when the fresh deadline fetch returns a timestamp earlier than
the current time, submit fails with the deadline-expired outcome and
issues no store write, in both the strict flow (handleSubmit) and the
permissive flow (submitVote), for every session state. -/
theorem submit_deadline_expired_no_writes (d : Int) (env : SubmitEnv)
    (env1 : SubmitEnv1) (voterId : Nat) (positions : List Position)
    (st st1 : SelState)
    (hfetch : env.deadlineFetch = Except.ok (some d)) (hnow : d < env.now)
    (hfetch1 : env1.deadlineFetch = some d) (hnow1 : d < env1.now) :
    handleSubmit env voterId positions st = (.deadlineExpired, []) ∧
    submitVote env1 voterId st1 = (.deadlineExpired, []) := by
  constructor
  · simp [handleSubmit, hfetch, dlExpired, hnow]
  · simp [submitVote, hfetch1, dlExpired, hnow1]

/-- C2 witness: deadline 5, current time 10, on the initial store. -/
theorem submit_deadline_expired_no_writes_witness :
    handleSubmit ⟨Except.ok (some 5), 10, true, true⟩ 9 ["A"]
        (initState ["A"]) = (.deadlineExpired, []) ∧
    submitVote ⟨some 5, 10, true, true⟩ 9 (initState ["A"]) =
      (.deadlineExpired, []) :=
  submit_deadline_expired_no_writes 5 ⟨Except.ok (some 5), 10, true, true⟩
    ⟨some 5, 10, true, true⟩ 9 ["A"] (initState ["A"]) (initState ["A"])
    rfl (by decide) rfl (by decide)


/-- C3: when every catalog position holds a chosen candidate and the
fresh deadline fetch does not report an expired deadline, the strict-flow
submit builds exactly one vote record (voter id, candidate id) per
position from that position's entry, inserts them as one batch, and only
afterwards issues the separate has_voted write, in that order. -/
theorem submit_complete_two_writes_in_order (env : SubmitEnv)
    (voterId : Nat) (positions : List Position) (st : SelState)
    (choice : Position → CandidateId) (dl : Option Int)
    (hfetch : env.deadlineFetch = Except.ok dl)
    (hdl : dlExpired dl env.now = false)
    (hsel : st.selections = positions.map (fun p => (p, some (choice p))))
    (hins : env.insertOk = true) (hmark : env.markOk = true) :
    handleSubmit env voterId positions st =
      (.success,
       [.insertVotes (positions.map (fun p => (voterId, choice p))),
        .markVoted voterId]) :=
  handleSubmit_success_core env voterId positions st choice dl hfetch hdl
    hsel hins hmark

/-- C3 witness: voter 9 with candidates 3 and 4 chosen for catalog
positions [A, B], no deadline configured, both store writes succeeding. -/
theorem submit_complete_two_writes_in_order_witness :
    handleSubmit ⟨Except.ok none, 0, true, true⟩ 9 ["A", "B"]
        { selections := [("A", some 3), ("B", some 4)], skipped := ∅ } =
      (.success, [.insertVotes [(9, 3), (9, 4)], .markVoted 9]) := by
  have h := submit_complete_two_writes_in_order
    ⟨Except.ok none, 0, true, true⟩ 9 ["A", "B"]
    { selections := [("A", some 3), ("B", some 4)], skipped := ∅ }
    (fun p => if p = "A" then 3 else 4) none rfl rfl (by decide) rfl rfl
  simpa using h

/-- C9: when the deadline fetch succeeds but no deadline setting exists,
the strict-flow submit skips deadline enforcement and, for a complete
ballot, proceeds through the completeness check to both store writes and
succeeds, whatever the current time is. -/
theorem submit_absent_deadline_succeeds (env : SubmitEnv) (voterId : Nat)
    (positions : List Position) (st : SelState)
    (choice : Position → CandidateId)
    (hfetch : env.deadlineFetch = Except.ok none)
    (hsel : st.selections = positions.map (fun p => (p, some (choice p))))
    (hins : env.insertOk = true) (hmark : env.markOk = true) :
    handleSubmit env voterId positions st =
      (.success,
       [.insertVotes (positions.map (fun p => (voterId, choice p))),
        .markVoted voterId]) :=
  handleSubmit_success_core env voterId positions st choice none hfetch rfl
    hsel hins hmark

/-- C9 witness: a very late current time (1000000) with no deadline row
still succeeds for a complete ballot. -/
theorem submit_absent_deadline_succeeds_witness :
    handleSubmit ⟨Except.ok none, 1000000, true, true⟩ 9 ["A"]
        { selections := [("A", some 3)], skipped := ∅ } =
      (.success, [.insertVotes [(9, 3)], .markVoted 9]) := by
  have h := submit_absent_deadline_succeeds
    ⟨Except.ok none, 1000000, true, true⟩ 9 ["A"]
    { selections := [("A", some 3)], skipped := ∅ }
    (fun _ => 3) rfl (by decide) rfl rfl
  simpa using h

/-- C10: in the permissive flow, when every selection slot is null (all
positions skipped or unset) and the deadline has not expired, submit
issues no votes insert at all, still issues the has_voted write, and
reports success. -/
theorem submit_all_null_marks_voted (env : SubmitEnv1) (voterId : Nat)
    (st : SelState)
    (hdl : dlExpired env.deadlineFetch env.now = false)
    (hnone : ∀ pr ∈ st.selections, pr.2 = none)
    (hmark : env.markOk = true) :
    submitVote env voterId st = (.success, [.markVoted voterId]) := by
  have hvotes : st.selections.filterMap
      (fun pr => pr.2.map (fun cid => (voterId, cid))) = [] := by
    rw [List.filterMap_eq_nil_iff]
    intro pr hpr
    rw [hnone pr hpr]
    rfl
  simp [submitVote, hdl, hvotes, hmark]

/-- C10 witness: both positions of the catalog [A, B] skipped; the only
write issued is the has_voted update and the attempt succeeds. -/
theorem submit_all_null_marks_voted_witness :
    submitVote ⟨some 50, 10, true, true⟩ 9
        { selections := [("A", none), ("B", none)], skipped := {"A", "B"} } =
      (.success, [.markVoted 9]) :=
  submit_all_null_marks_voted ⟨some 50, 10, true, true⟩ 9
    { selections := [("A", none), ("B", none)], skipped := {"A", "B"} }
    (by decide) (by decide) rfl


/-- A strict-flow submit attempt reports the deadline-expired outcome
exactly when the fetched deadline is expired at the attempt's time. -/
theorem handleSubmit_deadlineExpired_iff (env : SubmitEnv) (voterId : Nat)
    (positions : List Position) (st : SelState) (dl : Option Int)
    (hfetch : env.deadlineFetch = Except.ok dl) :
    (handleSubmit env voterId positions st).1 = .deadlineExpired ↔
      dlExpired dl env.now = true := by
  by_cases hc : dlExpired dl env.now = true
  · simp [handleSubmit, hfetch, hc]
  · refine iff_of_false ?_ hc
    intro h
    simp only [handleSubmit, hfetch] at h
    rw [if_neg hc] at h
    revert h
    split
    · simp
    · split
      · split <;> simp
      · simp

/-- C7 counterexample: a submit attempt of the strict flow fails with the
deadline-expired outcome (stored deadline 5, time 10), yet a later submit
attempt of the same session reaches both Ballot Store writes once the
stored deadline has been extended to 20: the session is not terminal. -/
theorem deadlineExpired_not_terminal :
    (handleSubmit ⟨Except.ok (some 5), 10, true, true⟩ 9 ["A"]
        { selections := [("A", some 1)], skipped := ∅ }).1 =
      SubmitResult.deadlineExpired ∧
    handleSubmit ⟨Except.ok (some 20), 11, true, true⟩ 9 ["A"]
        { selections := [("A", some 1)], skipped := ∅ } =
      (.success, [.insertVotes [(9, 1)], .markVoted 9]) := by decide

/-- C7 (amended): nothing marks the session terminal after a
deadline-expired failure; every later attempt re-fetches the deadline, so
as long as the stored deadline setting is unchanged and the clock does
not go backwards, every subsequent submit attempt fails again with the
deadline-expired outcome and issues no store write; if the stored
deadline is extended, a later attempt can reach the writes. -/
theorem deadlineExpired_blocks_later_attempts (envs : Nat → SubmitEnv)
    (d : Int) (voterId : Nat) (positions : List Position)
    (hfetch : ∀ j, (envs j).deadlineFetch = Except.ok (some d))
    (hmono : ∀ j k, j ≤ k → (envs j).now ≤ (envs k).now)
    (i : Nat) (sti : SelState)
    (hfail : (handleSubmit (envs i) voterId positions sti).1 =
      .deadlineExpired)
    (j : Nat) (hij : i ≤ j) (stj : SelState) :
    handleSubmit (envs j) voterId positions stj = (.deadlineExpired, []) := by
  have hi : dlExpired (some d) (envs i).now = true :=
    (handleSubmit_deadlineExpired_iff (envs i) voterId positions sti
      (some d) (hfetch i)).1 hfail
  have hlt : d < (envs i).now := by simpa [dlExpired] using hi
  have hj : d < (envs j).now := lt_of_lt_of_le hlt (hmono i j hij)
  simp [handleSubmit, hfetch j, dlExpired, hj]

/-- C7 witness: with the deadline fixed at 5 and the clock advancing one
unit per attempt from 10, the attempt after the failing first one also
fails with the deadline-expired outcome and issues no write. -/
theorem deadlineExpired_blocks_later_attempts_witness :
    handleSubmit ⟨Except.ok (some 5), 10 + 1, true, true⟩ 9 ["A"]
        (initState ["A"]) = (.deadlineExpired, []) :=
  deadlineExpired_blocks_later_attempts
    (fun j => ⟨Except.ok (some 5), 10 + j, true, true⟩) 5 9 ["A"]
    (fun _ => rfl) (fun j k h => by dsimp only; omega) 0 (initState ["A"])
    (by decide) 1 (by omega) (initState ["A"])

end VotingPortal
